import Mathlib

/-!
Shallow embedding of the tree-view sample extensions (static test view, JSON
outline, FTP explorer, file-system explorer) and proofs about the hierarchical
data-provider contract they implement.

String manipulation is modelled over `List Char` so that every definition is
executable and kernel-reducible.  External collaborators (the vscode `Uri`
class, Node's `path.dirname`/`path.basename`, the `jsonc-parser` location
functions, the OS file system, the FTP wire protocol) are modelled only to the
extent the sample code observes them; each such model is marked in its doc
comment.
-/

deriving instance DecidableEq for Except

namespace Util

/-- Split a character list at the first character satisfying `p`; returns the
prefix before it and the remainder (starting with the matched character). -/
def takeUntil (p : Char → Bool) : List Char → List Char × List Char
  | [] => ([], [])
  | c :: t =>
    if p c then ([], c :: t)
    else
      let r := takeUntil p t
      (c :: r.1, r.2)

/-- Lexicographic comparison of character lists by code point (the model used
for JavaScript `localeCompare` on the ASCII names appearing in this code). -/
def listLE : List Char → List Char → Bool
  | [], _ => true
  | _ :: _, [] => false
  | a :: as, b :: bs =>
    if a < b then true
    else if b < a then false
    else listLE as bs

/-- String comparison used to model `localeCompare(x, y) <= 0`. -/
def strLE (x y : String) : Bool := listLE x.data y.data

/-- Adjacent-pairs sortedness check for a boolean order. -/
def chainLE (le : α → α → Bool) : List α → Bool
  | [] => true
  | [_] => true
  | a :: b :: t => le a b && chainLE le (b :: t)

/-- Insert into a sorted list; the model of the effect of
`Array.prototype.sort` with a consistent comparator (the result is the sorted
permutation of the input). -/
def orderedInsert (le : α → α → Bool) (a : α) : List α → List α
  | [] => [a]
  | b :: t => if le a b then a :: b :: t else b :: orderedInsert le a t

/-- Sorting model for `Array.prototype.sort(comparator)`. -/
def sortBy (le : α → α → Bool) : List α → List α
  | [] => []
  | a :: t => orderedInsert le a (sortBy le t)

/-- Substring of `s` starting at byte offset `off` with length `len`; the model
of `document.getText(new Range(positionAt(off), positionAt(off + len)))`. -/
def substrRange (s : String) (off len : Nat) : String :=
  ⟨(s.data.drop off).take len⟩

/-- Replace the range `[off, off + len)` of `s` by `repl`; the model of a
single `editBuilder.replace` text edit. -/
def replaceRange (s : String) (off len : Nat) (repl : String) : String :=
  ⟨s.data.take off ++ repl.data ++ s.data.drop (off + len)⟩

/-- Decimal rendering of an integer (JavaScript `Number.prototype.toString`
for the integers appearing in this code). -/
def intStr (n : Int) : String :=
  if n < 0 then "-" ++ Nat.repr n.natAbs else Nat.repr n.natAbs

/-- JavaScript `Array.prototype.indexOf` over a list of heap indices:
position of the first occurrence, `-1` if absent. -/
def jsIndexOf (l : List Nat) (x : Nat) : Int :=
  go l 0
where
  go : List Nat → Nat → Int
    | [], _ => -1
    | y :: t, k => if y = x then (k : Int) else go t (k + 1)

/-- Scan of Node's `path.posix.dirname`: walking from the end of the string
(indices down to 1), skip the trailing run of slashes, and return the index of
the first slash found after a non-slash character. `rev` is the reversed
character list, `i` the index of its head in the original string. -/
def dirnameCore : List Char → Nat → Bool → Option Nat
  | [], _, _ => none
  | c :: t, i, ms =>
    if i = 0 then none
    else if c = '/' then
      if ms then dirnameCore t (i - 1) ms else some i
    else dirnameCore t (i - 1) false

/-- Model of Node `path.posix.dirname` (the algorithm of Node's
implementation, transcribed), over character lists. -/
def dirnameL : List Char → List Char
  | [] => ['.']
  | c :: t =>
    match dirnameCore (c :: t).reverse ((c :: t).length - 1) true with
    | none => if c = '/' then ['/'] else ['.']
    | some e => if c = '/' ∧ e = 1 then ['/', '/'] else (c :: t).take e

/-- Model of Node `path.posix.dirname`. -/
def dirname (s : String) : String := ⟨dirnameL s.data⟩

/-- Model of Node `path.posix.basename`: the last path segment, ignoring
trailing slashes. -/
def basename (s : String) : String :=
  ⟨((s.data.reverse.dropWhile (fun c => c == '/')).takeWhile (fun c => !(c == '/'))).reverse⟩

end Util

/-- Collapsible state of a displayed tree item (vscode
`TreeItemCollapsibleState`). -/
inductive CollapsibleState
  | none
  | collapsed
  | expanded
deriving DecidableEq, Repr

namespace TestView

/-- The nested-object tree literal of the test view sample. -/
inductive STree
  | mk (entries : List (String × STree))

/-- Entries of a tree object (`Object.keys`-order preserved). -/
def STree.entries : STree → List (String × STree)
  | .mk es => es

/-- The module-level `tree` constant of the test view sample. -/
def tree : STree :=
  .mk
    [("a", .mk
       [("aa", .mk
          [("aaa", .mk
             [("aaaa", .mk
                [("aaaaa", .mk
                   [("aaaaaa", .mk [])])])])]),
        ("ab", .mk [])]),
     ("b", .mk
       [("ba", .mk []),
        ("bb", .mk [])])]

/-- JavaScript object property lookup `parent[key]`. -/
def lookupEntry : List (String × STree) → String → Option STree
  | [], _ => none
  | (k, t) :: rest, key => if k == key then some t else lookupEntry rest key

/-- `getTreeElement`: walk the prefixes `key.substring(0, i + 1)` of `key`
down the nested tree, returning `null` (`none`) as soon as a lookup fails. -/
def getTreeElement (key : String) : Option STree :=
  (List.range key.length).foldl
    (fun acc i => acc.bind (fun t => lookupEntry t.entries ⟨key.data.take (i + 1)⟩))
    (some tree)

/-- `getChildren`: keys of the tree for a falsy key, keys of the resolved
element otherwise, `[]` when the element does not resolve. -/
def getChildren (key : String) : List String :=
  if key == "" then tree.entries.map (fun e => e.1)
  else
    match getTreeElement key with
    | some t => t.entries.map (fun e => e.1)
    | none => []

/-- `getParent` of the `aNodeWithIdTreeDataProvider`: drop the last character
of the key; `undefined` (`none`) when that leaves the empty string. -/
def getParent (key : String) : Option String :=
  let parentKey : String := ⟨key.data.take (key.length - 1)⟩
  if parentKey != "" then some parentKey else none

/-- Display item built by the test view's `getTreeItem`. -/
structure TVItem where
  label : String
  highlights : Option (List (Nat × Nat))
  tooltip : String
  collapsibleState : CollapsibleState
deriving DecidableEq

/-- `getTreeItem` of the test view sample. -/
def getTreeItem (key : String) : TVItem :=
  let treeElement := getTreeElement key
  { label := key
    highlights :=
      if key.length > 1 then some [(key.length - 2, key.length - 1)] else none
    tooltip := "Tooltip for " ++ key
    collapsibleState :=
      match treeElement with
      | some t => if t.entries.length != 0 then .collapsed else .none
      | none => .none }

/-- All keys reachable in the static tree (the NodeIds of this view). -/
def allKeys : List String :=
  ["a", "aa", "aaa", "aaaa", "aaaaa", "aaaaaa", "ab", "b", "ba", "bb"]

/-- Boolean form of the parent/child inverse law over the static tree. -/
def parentLawHolds : Bool :=
  allKeys.all (fun p => (getChildren p).all (fun c => getParent c == some p))

end TestView

namespace Vsc

/-- Model of the vscode `Uri` value: scheme, authority and path components
(query and fragment never occur in this code and are omitted). -/
structure Uri where
  scheme : String
  authority : String
  path : String
deriving DecidableEq, Repr

/-- Model of vscode's `_referenceResolution` constructor step: for the
schemes `https`, `http` and `file` an empty path becomes `/` and a relative
path gains a leading slash. -/
def refResolve (scheme path : String) : String :=
  if scheme == "https" || scheme == "http" || scheme == "file" then
    if path == "" then "/"
    else if path.data.head? ≠ some '/' then "/" ++ path
    else path
  else path

/-- Model of the vscode `Uri` constructor (non-strict): an absent scheme
defaults to `file`, then reference resolution is applied to the path. -/
def mkUri (scheme authority path : String) : Uri :=
  let scheme2 := if scheme == "" then "file" else scheme
  { scheme := scheme2, authority := authority, path := refResolve scheme2 path }

/-- First component of vscode's parsing regular expression: a non-empty run
of characters other than `:/?#` followed by a colon is the scheme. -/
def splitScheme (l : List Char) : Option (List Char) × List Char :=
  let r := Util.takeUntil (fun c => c = ':' || c = '/' || c = '?' || c = '#') l
  match r.2 with
  | ':' :: rest => if r.1.isEmpty then (none, l) else (some r.1, rest)
  | _ => (none, l)

/-- Model of `Uri.parse` (non-strict): scheme, then `//`-introduced authority
up to the next `/?#`, then the path up to `?#`.  The inputs built by this
code contain no percent escapes, so percent decoding is the identity. -/
def parseUri (s : String) : Uri :=
  let r := splitScheme s.data
  let scheme : String := match r.1 with | some sc => ⟨sc⟩ | none => ""
  match r.2 with
  | '/' :: '/' :: rest =>
    let a := Util.takeUntil (fun c => c = '/' || c = '?' || c = '#') rest
    let p := Util.takeUntil (fun c => c = '?' || c = '#') a.2
    mkUri scheme ⟨a.1⟩ ⟨p.1⟩
  | other =>
    let p := Util.takeUntil (fun c => c = '?' || c = '#') other
    mkUri scheme "" ⟨p.1⟩

/-- Model of `Uri.with` restricted to replacing the path (the only use in
this code); the constructor's reference resolution applies again. -/
def uriWithPath (u : Uri) (path : String) : Uri :=
  mkUri u.scheme u.authority path

/-- Model of vscode's `uriToFsPath` on a POSIX host: a `file` URI with a
non-empty authority renders as a UNC path, otherwise the path itself (the
Windows drive-letter case cannot arise here). -/
def fsPath (u : Uri) : String :=
  if u.authority != "" && decide (u.path.length > 1) && u.scheme == "file" then
    "//" ++ u.authority ++ u.path
  else u.path

/-- Model of `Uri.file`: scheme `file`, empty authority. -/
def uriFile (p : String) : Uri := mkUri "file" "" p

end Vsc

namespace FtpExplorer

/-- A raw listing entry returned by the FTP client: name and type
(`"d"` marks a directory). -/
structure IEntry where
  name : String
  type : String
deriving DecidableEq, Repr

/-- `FtpNode`: the NodeId of the FTP explorer. -/
structure FtpNode where
  resource : Vsc.Uri
  isDirectory : Bool
deriving DecidableEq, Repr

/-- Connection-lifecycle events observed on the FTP client. -/
inductive ConnEvent
  | connected
  | ended
deriving DecidableEq, Repr

/-- Comparator of `FtpModel.sort` as a boolean order (`compare(n1,n2) <= 0`):
directories sort before files, ties by `localeCompare` of the basenames of
the `fsPath`s. -/
def ftpLE (a b : FtpNode) : Bool :=
  if a.isDirectory && !b.isDirectory then true
  else if !a.isDirectory && b.isDirectory then false
  else Util.strLE (Util.basename (Vsc.fsPath a.resource)) (Util.basename (Vsc.fsPath b.resource))

/-- `FtpModel.sort`. -/
def sort (nodes : List FtpNode) : List FtpNode := Util.sortBy ftpLE nodes

/-- Root node construction in `FtpModel.roots`:
`Uri.parse("ftp://<host>///<name>")`. -/
def mkRootNode (host : String) (e : IEntry) : FtpNode :=
  { resource := Vsc.parseUri ("ftp://" ++ host ++ "///" ++ e.name)
    isDirectory := e.type == "d" }

/-- Child node construction in `FtpModel.getChildren`:
`Uri.parse(node.resource.fsPath + "/" + name)`. -/
def mkChildNode (node : FtpNode) (e : IEntry) : FtpNode :=
  { resource := Vsc.parseUri (Vsc.fsPath node.resource ++ "/" ++ e.name)
    isDirectory := e.type == "d" }

/-- `FtpModel.roots`: connect, list, then `client.end()` only on the success
path before resolving with the sorted mapped listing.  `conn` and `listRes`
stand for the outcome of the external `connect`/`list` calls; the returned
trace records the connection lifecycle events in order. -/
def roots (host : String) (conn : Except String Unit)
    (listRes : Except String (List IEntry)) :
    Except String (List FtpNode) × List ConnEvent :=
  match conn with
  | .error e => (.error ("Error while connecting: " ++ e), [])
  | .ok _ =>
    match listRes with
    | .error e => (.error e, [.connected])
    | .ok l => (.ok (sort (l.map (mkRootNode host))), [.connected, .ended])

/-- `FtpModel.getChildren`, with the same connection-lifecycle modelling as
`roots`. -/
def getChildren (node : FtpNode) (conn : Except String Unit)
    (listRes : Except String (List IEntry)) :
    Except String (List FtpNode) × List ConnEvent :=
  match conn with
  | .error e => (.error ("Error while connecting: " ++ e), [])
  | .ok _ =>
    match listRes with
    | .error e => (.error e, [.connected])
    | .ok l => (.ok (sort (l.map (mkChildNode node))), [.connected, .ended])

/-- `FtpModel.getContent`: connect, `client.get`; on error reject without
ending the connection, on success `client.end()` fires at stream end before
resolving the accumulated string. -/
def getContent (conn : Except String Unit) (getRes : Except String String) :
    Except String String × List ConnEvent :=
  match conn with
  | .error e => (.error ("Error while connecting: " ++ e), [])
  | .ok _ =>
    match getRes with
    | .error e => (.error e, [.connected])
    | .ok s => (.ok s, [.connected, .ended])

/-- `FtpTreeDataProvider.getParent`: recompute the parent from the resource
path with `path.dirname`; `null` when the parent path is `//`. -/
def getParent (element : FtpNode) : Option FtpNode :=
  let parent := Vsc.uriWithPath element.resource (Util.dirname element.resource.path)
  if parent.path != "//" then some { resource := parent, isDirectory := true }
  else none

end FtpExplorer

namespace JsonOutline

/-- JavaScript runtime error raised by the outline code (property access on
`undefined`, `toString` on `null`/`undefined`). -/
inductive JsErr
  | typeError
deriving DecidableEq, Repr

/-- A JavaScript value stored in a `jsonc-parser` node's `value` slot. -/
inductive JSVal
  | undef
  | null
  | str (s : String)
  | num (n : Int)
  | bool (b : Bool)
deriving DecidableEq, Repr

/-- JavaScript `value.toString()`: throws on `null` and `undefined`. -/
def jsToString : JSVal → Except JsErr String
  | .undef => .error .typeError
  | .null => .error .typeError
  | .str s => .ok s
  | .num n => .ok (Util.intStr n)
  | .bool b => .ok (if b then "true" else "false")

/-- Node type of a `jsonc-parser` tree node. -/
inductive JType
  | obj
  | arr
  | prop
  | strT
  | num
  | boolT
  | nullT
deriving DecidableEq, Repr

/-- One node of the parsed document tree.  Nodes reference each other through
heap indices (`parent`, `children`) because `jsonc-parser` nodes carry mutual
object references; `children` is absent (`none`) on literal nodes. -/
structure NodeRec where
  offset : Nat
  length : Nat
  typ : JType
  value : JSVal
  parent : Option Nat
  children : Option (List Nat)
deriving DecidableEq, Repr

/-- The parsed tree heap; a node id is an index into this list. -/
abbrev Doc := List NodeRec

/-- `getChildrenOffsets`: iterate `node.children`, re-resolve each child
through `getLocation`/`findNodeAtLocation` (the black-box composition is the
`resolve` parameter, offset to heap index), keep the offsets that resolve.
Iterating `children` of `undefined`, or of a literal node, throws. -/
def getChildrenOffsets (d : Doc) (resolve : Nat → Option Nat) (node : Option Nat) :
    Except JsErr (List Nat) :=
  match node with
  | none => .error .typeError
  | some i =>
    match d[i]? with
    | none => .error .typeError
    | some n =>
      match n.children with
      | none => .error .typeError
      | some cs =>
        .ok (cs.filterMap (fun ci =>
          (d[ci]?).bind (fun c =>
            (resolve c.offset).bind (fun ni => (d[ni]?).map (fun cn => cn.offset)))))

/-- `JsonOutlineProvider.getChildren`: a truthy offset is resolved and its
children enumerated; a falsy offset (absent or `0`) yields the root's
children, or `[]` when there is no parsed tree. -/
def getChildren (d : Doc) (tree : Option Nat) (resolve : Nat → Option Nat)
    (offset : Option Nat) : Except JsErr (List Nat) :=
  match offset with
  | some o =>
    if o ≠ 0 then getChildrenOffsets d resolve (resolve o)
    else
      match tree with
      | some r => getChildrenOffsets d resolve (some r)
      | none => .ok []
  | none =>
    match tree with
    | some r => getChildrenOffsets d resolve (some r)
    | none => .ok []

/-- `getLabel`: array children are labelled `index:value`, property values
`key: value` (with the container variants), where the key is the parent's
first child.  Dereferencing the absent parent of the root and `toString` on a
`null` value throw. -/
def getLabel (d : Doc) (text : String) (i : Nat) : Except JsErr String :=
  match d[i]? with
  | none => .error .typeError
  | some n =>
    match n.parent with
    | none => .error .typeError
    | some pi =>
      match d[pi]? with
      | none => .error .typeError
      | some p =>
        if p.typ == .arr then
          match p.children with
          | none => .error .typeError
          | some cs =>
            let pos := Util.intStr (Util.jsIndexOf cs i)
            if n.typ == .obj then .ok (pos ++ ":\x7b \x7d")
            else if n.typ == .arr then .ok (pos ++ ":[ ]")
            else
              match jsToString n.value with
              | .error e => .error e
              | .ok v => .ok (pos ++ ":" ++ v)
        else
          match p.children with
          | none => .error .typeError
          | some [] => .error .typeError
          | some (c0 :: _) =>
            match d[c0]? with
            | none => .error .typeError
            | some k =>
              match jsToString k.value with
              | .error e => .error e
              | .ok property =>
                if n.typ == .obj then .ok ("\x7b \x7d " ++ property)
                else if n.typ == .arr then .ok ("[ ] " ++ property)
                else .ok (property ++ ": " ++ Util.substrRange text n.offset n.length)

/-- Display item built by the outline's `getTreeItem`. -/
structure JItem where
  label : String
  collapsibleState : CollapsibleState
  commandRange : Nat × Nat
  icon : Option String
  contextValue : JType
deriving DecidableEq, Repr

/-- `getIcon`, reduced to the icon base name. -/
def getIcon (n : NodeRec) : Option String :=
  match n.typ with
  | .boolT => some "boolean"
  | .strT => some "string"
  | .num => some "number"
  | _ => none

/-- `JsonOutlineProvider.getTreeItem`: `null` (`none`) for a NodeId that no
longer resolves, otherwise an item whose label computation may throw. -/
def getTreeItem (d : Doc) (text : String) (resolve : Nat → Option Nat)
    (offset : Nat) : Except JsErr (Option JItem) :=
  match resolve offset with
  | none => .ok none
  | some i =>
    match d[i]? with
    | none => .ok none
    | some n =>
      let hasChildren := n.typ == .obj || n.typ == .arr
      match getLabel d text i with
      | .error e => .error e
      | .ok label =>
        .ok (some
          { label := label
            collapsibleState :=
              if hasChildren then
                if n.typ == .obj then .expanded else .collapsed
              else .none
            commandRange := (n.offset, n.offset + n.length)
            icon := getIcon n
            contextValue := n.typ })

/-- Event payload fired by `refresh(offset?)`: a truthy offset is fired as
is, a falsy one (absent or `0`) fires the root-changed event (`none`). -/
def refreshPayload (offset : Option Nat) : Option Nat :=
  match offset with
  | some n => if n ≠ 0 then some n else none
  | none => none

/-- `JsonOutlineProvider.rename` (the edit callback, with the input-box value
supplied): resolve the target, redirect to the parent's first child when the
parent is not an array, replace the target's range by the quoted value, then
fire `refresh(offset)`.  Returns the edited text and the fired payload. -/
def rename (d : Doc) (text : String) (resolve : Nat → Option Nat)
    (offset : Nat) (value : String) : Except JsErr (String × Option Nat) :=
  match resolve offset with
  | none => .error .typeError
  | some i =>
    match d[i]? with
    | none => .error .typeError
    | some n =>
      match n.parent with
      | none => .error .typeError
      | some pi =>
        match d[pi]? with
        | none => .error .typeError
        | some p =>
          let target : Except JsErr NodeRec :=
            if p.typ == .arr then .ok n
            else
              match p.children with
              | none => .error .typeError
              | some [] => .error .typeError
              | some (c0 :: _) =>
                match d[c0]? with
                | none => .error .typeError
                | some k => .ok k
          match target with
          | .error e => .error e
          | .ok t =>
            .ok (Util.replaceRange text t.offset t.length ("\"" ++ value ++ "\""),
                 refreshPayload (some offset))

/-- Provider state owned by `doParseTree`: the raw text and the parsed tree
(heap plus root index), `none` when parsing fails or no editor is active. -/
structure JState where
  text : String
  tree : Option (Doc × Nat)

/-- `doParseTree`: reset the state, then re-derive it from the active
editor's current raw content (`none` models an absent editor); `parse` is the
external `jsonc-parser.parseTree`. -/
def doParseTree (parse : String → Option (Doc × Nat)) (raw : Option String) : JState :=
  match raw with
  | some t => { text := t, tree := parse t }
  | none => { text := "", tree := none }

/-- `refresh(offset?)`: re-parse, then fire exactly one change event. -/
def refresh (parse : String → Option (Doc × Nat)) (raw : Option String)
    (offset : Option Nat) : JState × Option Nat :=
  (doParseTree parse raw, refreshPayload offset)

/-- Observable steps of the provider: a re-derivation of the backing state or
a change-event publication. -/
inductive JStep
  | reparse (st : JState)
  | fire (payload : Option Nat)

/-- Step trace of `refresh`: `doParseTree` strictly precedes the event. -/
def refreshSteps (parse : String → Option (Doc × Nat)) (raw : String)
    (offset : Option Nat) : List JStep :=
  [.reparse (doParseTree parse (some raw)), .fire (refreshPayload offset)]

/-- Loop body of `onDocumentChanged` over the content changes: compute the
payload from the pre-change state (`rp` is the black-box
`getLocation`/`pop`/`findNodeAtLocation` composite yielding the changed
node's offset), then re-parse, then fire. -/
def onDocChangedGo (parse : String → Option (Doc × Nat)) (raw : String)
    (rp : JState → Nat → Option Nat) : JState → List Nat → List JStep
  | _, [] => []
  | st, c :: rest =>
    let payload := rp st c
    let st2 := doParseTree parse (some raw)
    .reparse st2 :: .fire payload :: onDocChangedGo parse raw rp st2 rest

/-- `onDocumentChanged`: guarded by `autoRefresh` and the URI match, then the
per-change loop. -/
def onDocumentChangedSteps (parse : String → Option (Doc × Nat)) (raw : String)
    (rp : JState → Nat → Option Nat) (autoRefresh uriMatch : Bool)
    (st0 : JState) (changes : List Nat) : List JStep :=
  if autoRefresh && uriMatch then onDocChangedGo parse raw rp st0 changes else []

/-- In a step trace, every fired event is seen only while the last
re-derivation equals the fresh state `fresh` (observers never observe a stale
backing source). -/
def firesFresh (fresh : JState) : Option JState → List JStep → Prop
  | _, [] => True
  | _, .reparse s :: rest => firesFresh fresh (some s) rest
  | cur, .fire _ :: rest => cur = some fresh ∧ firesFresh fresh cur rest

/-- Raw text of the spec's scenario document (braces escaped):
the JSON object with key `a` bound to `1` and key `b` bound to `[2,3]`. -/
def sampleText : String := "\x7b\"a\": 1, \"b\": [2,3]\x7d"

/-- The `jsonc-parser` tree of `sampleText`, transcribed node by node
(property nodes span from their key to the end of their value; property and
container nodes carry `children`, literals do not). -/
def sampleDoc : Doc :=
  [ { offset := 0, length := 20, typ := .obj, value := .undef, parent := none, children := some [1, 4] },
    { offset := 1, length := 6, typ := .prop, value := .undef, parent := some 0, children := some [2, 3] },
    { offset := 1, length := 3, typ := .strT, value := .str "a", parent := some 1, children := none },
    { offset := 6, length := 1, typ := .num, value := .num 1, parent := some 1, children := none },
    { offset := 9, length := 10, typ := .prop, value := .undef, parent := some 0, children := some [5, 6] },
    { offset := 9, length := 3, typ := .strT, value := .str "b", parent := some 4, children := none },
    { offset := 14, length := 5, typ := .arr, value := .undef, parent := some 4, children := some [7, 8] },
    { offset := 15, length := 1, typ := .num, value := .num 2, parent := some 6, children := none },
    { offset := 17, length := 1, typ := .num, value := .num 3, parent := some 6, children := none } ]

/-- The `getLocation`/`findNodeAtLocation` composition on `sampleText` and
`sampleDoc`: an offset inside a property resolves to the property's value
node, the offset of a value node resolves to itself, `0` to the root. -/
def sampleResolve : Nat → Option Nat := fun o =>
  if o = 0 then some 0
  else if o = 1 then some 3
  else if o = 6 then some 3
  else if o = 9 then some 6
  else if o = 14 then some 6
  else if o = 15 then some 7
  else if o = 17 then some 8
  else none

/-- Raw text of the document holding a `null` inside an array (braces
escaped): key `a` bound to `[null]`. -/
def nullText : String := "\x7b\"a\":[null]\x7d"

/-- The `jsonc-parser` tree of `nullText`. -/
def nullDoc : Doc :=
  [ { offset := 0, length := 12, typ := .obj, value := .undef, parent := none, children := some [1] },
    { offset := 1, length := 10, typ := .prop, value := .undef, parent := some 0, children := some [2, 3] },
    { offset := 1, length := 3, typ := .strT, value := .str "a", parent := some 1, children := none },
    { offset := 5, length := 6, typ := .arr, value := .undef, parent := some 1, children := some [4] },
    { offset := 6, length := 4, typ := .nullT, value := .null, parent := some 3, children := none } ]

/-- The location-resolution composition on `nullText` and `nullDoc`. -/
def nullResolve : Nat → Option Nat := fun o =>
  if o = 0 then some 0
  else if o = 1 then some 3
  else if o = 5 then some 3
  else if o = 6 then some 4
  else none

/-- A resolver for a NodeId whose node no longer exists in the parsed tree:
every lookup fails. -/
def vanishedResolve : Nat → Option Nat := fun _ => none

end JsonOutline

namespace FileExplorer

/-- vscode `FileType`. -/
inductive FileType
  | unknown
  | file
  | directory
  | symbolicLink
deriving DecidableEq, Repr

/-- `Entry`: the NodeId of the file explorer. -/
structure Entry where
  uri : Vsc.Uri
  typ : FileType
deriving DecidableEq, Repr

/-- The error taxonomy produced by `massageError` from OS error codes
(`ENOENT`, `EEXIST`, `EISDIR`, `EPERM`/`EACCESS`). -/
inductive FsErr
  | fileNotFound
  | fileExists
  | fileIsADirectory
  | noPermissions
deriving DecidableEq, Repr

/-- A file-system entry: a regular file with content, or a directory. -/
inductive FsNode
  | file (content : String)
  | dir
deriving DecidableEq, Repr

/-- Model of the external local file system: an association list from
absolute path to entry.  Owned by the OS; the provider reads and writes it
only through the `_` primitives below. -/
abbrev FileSys := List (String × FsNode)

/-- `fs.exists` (via `_.exists`). -/
def fsExists (fs : FileSys) (p : String) : Bool :=
  fs.any (fun e => e.1 == p)

/-- Existence of a directory path; the root `/` always exists. -/
def dirExists (fs : FileSys) (p : String) : Bool :=
  p == "/" || fs.any (fun e => e.1 == p)

/-- Is `q` the path `p` itself or strictly below it? -/
def underPath (p q : String) : Bool :=
  q == p || (p ++ "/").data.isPrefixOf q.data

/-- `rimraf` (via `_.rmrf`): remove the path and everything below it. -/
def fsRmrf (fs : FileSys) (p : String) : FileSys :=
  fs.filter (fun e => !(underPath p e.1))

/-- Store `n` at path `p`, replacing any previous entry. -/
def fsStore (fs : FileSys) (p : String) (n : FsNode) : FileSys :=
  (fs.filter (fun e => e.1 != p)) ++ [(p, n)]

/-- One step of `mkdirp`: create the directory if absent. -/
def insertDirIfAbsent (fs : FileSys) (p : String) : FileSys :=
  if fsExists fs p then fs else fs ++ [(p, .dir)]

/-- Fueled ancestor walk of `mkdirp` (via `_.mkdir`): create the path and its
`dirname` ancestors up to the root. -/
def mkdirpGo : Nat → FileSys → String → FileSys
  | 0, fs, _ => fs
  | fuel + 1, fs, q =>
    if q == "/" || q == "" then fs
    else mkdirpGo fuel (insertDirIfAbsent fs q) (Util.dirname q)

/-- `mkdirp` (via `_.mkdir`). -/
def fsMkdirp (fs : FileSys) (p : String) : FileSys :=
  mkdirpGo (p.length + 1) fs p

/-- `fs.writeFile` (via `_.writefile`): succeeds when the target or its
parent directory exists, rejecting with `ENOENT` → `FileNotFound` otherwise.
Other OS-level failures (permissions, directory targets) are outside the
behaviour this code exercises. -/
def writefile (fs : FileSys) (p : String) (content : String) :
    Except FsErr Unit × FileSys :=
  if fsExists fs p || dirExists fs (Util.dirname p) then
    (.ok (), fsStore fs p (.file content))
  else (.error .fileNotFound, fs)

/-- `fs.rename` (via `_.rename`): move the path and everything below it;
rejects with `ENOENT` → `FileNotFound` when the source does not exist. -/
def renamePrim (fs : FileSys) (oldPath newPath : String) :
    Except FsErr Unit × FileSys :=
  if fsExists fs oldPath then
    (.ok (),
     fs.map (fun e =>
       if underPath oldPath e.1 then
         (if e.1 == oldPath then newPath else newPath ++ ⟨e.1.data.drop oldPath.length⟩, e.2)
       else e))
  else (.error .fileNotFound, fs)

/-- `fs.readdir` (via `_.readdir`): names of the direct children of `p`, in
backing-store order. -/
def fsReaddir (fs : FileSys) (p : String) : List String :=
  (fs.filter (fun e => Util.dirname e.1 == p && e.1 != p)).map
    (fun e => Util.basename e.1)

/-- `FileSystemProvider._writeFile`: the create/overwrite flag logic over the
primitives. -/
def writeFile (fs : FileSys) (p : String) (content : String)
    (create overwrite : Bool) : Except FsErr Unit × FileSys :=
  let ex := fsExists fs p
  if !ex then
    if !create then (.error .fileNotFound, fs)
    else writefile (fsMkdirp fs (Util.dirname p)) p content
  else
    if !overwrite then (.error .fileExists, fs)
    else writefile fs p content

/-- `FileSystemProvider._rename`: delete an existing target when overwriting,
create the target's parent if missing, then rename. -/
def rename (fs : FileSys) (oldPath newPath : String) (overwrite : Bool) :
    Except FsErr Unit × FileSys :=
  let ex := fsExists fs newPath
  if ex && !overwrite then (.error .fileExists, fs)
  else
    let fs1 := if ex then fsRmrf fs newPath else fs
    let fs2 :=
      if !(dirExists fs1 (Util.dirname newPath)) then fsMkdirp fs1 (Util.dirname newPath)
      else fs1
    renamePrim fs2 oldPath newPath

/-- Comparator of the workspace-root listing in
`FileSystemProvider.getChildren`, as a boolean order (`compare(a,b) <= 0`):
equal types compare by name, otherwise a sorts first iff it is a
directory. -/
def rootLE (a b : String × FileType) : Bool :=
  if a.2 == b.2 then Util.strLE a.1 b.1 else a.2 == .directory

/-- `getChildren(element)`: map the `readDirectory` listing (the external
result is the `listing` parameter) to entries — no sorting at this level. -/
def getChildrenElem (element : Entry) (listing : List (String × FileType)) :
    List Entry :=
  listing.map (fun nt => { uri := Vsc.uriFile (Vsc.fsPath element.uri ++ "/" ++ nt.1), typ := nt.2 })

/-- `getChildren()` at the workspace root: sort the listing with the root
comparator, then map to entries. -/
def getChildrenRoot (wsFolder : Vsc.Uri) (listing : List (String × FileType)) :
    List Entry :=
  (Util.sortBy rootLE listing).map
    (fun nt => { uri := Vsc.uriFile (Vsc.fsPath wsFolder ++ "/" ++ nt.1), typ := nt.2 })

/-- The ordering the spec demands of directory listings: directories strictly
before files, ties (same kind) lexicographically by name. -/
def entryLE (a b : Entry) : Bool :=
  if (a.typ == .directory) && !(b.typ == .directory) then true
  else if !(a.typ == .directory) && (b.typ == .directory) then false
  else Util.strLE (Util.basename a.uri.path) (Util.basename b.uri.path)

/-- Display item built by the file explorer's `getTreeItem`. -/
structure FsItem where
  resourceUri : Vsc.Uri
  collapsibleState : CollapsibleState
  hasOpenCommand : Bool
  contextValue : Option String
deriving DecidableEq, Repr

/-- `FileSystemProvider.getTreeItem`: total — it consults only the entry
itself, never the backing source. -/
def getTreeItem (element : Entry) : FsItem :=
  { resourceUri := element.uri
    collapsibleState :=
      if element.typ == .directory then .collapsed else .none
    hasOpenCommand := element.typ == .file
    contextValue := if element.typ == .file then some "file" else none }

end FileExplorer

/-- A root directory node of the FTP explorer for host `h` and listing entry
`d` of type directory. -/
def ftpRoot : FtpExplorer.FtpNode :=
  FtpExplorer.mkRootNode "h" { name := "d", type := "d" }

/-- The node listed under `ftpRoot` for the entry `c` (a directory). -/
def ftpChild : FtpExplorer.FtpNode :=
  FtpExplorer.mkChildNode ftpRoot { name := "c", type := "d" }

/-- The node listed under `ftpChild` for the entry `g` (a file). -/
def ftpGrandchild : FtpExplorer.FtpNode :=
  FtpExplorer.mkChildNode ftpChild { name := "g", type := "f" }

/-- A file system holding the root directory and the file `/b`. -/
def fsWithB : FileExplorer.FileSys :=
  [("/", .dir), ("/b", .file "x")]

/-- A file system holding only the root directory. -/
def fsRootOnly : FileExplorer.FileSys := [("/", .dir)]

/-- A file system holding the root directory and the file `/f`. -/
def fsWithF : FileExplorer.FileSys :=
  [("/", .dir), ("/f", .file "old")]

/-- A `readDirectory` listing that arrives with a file before a directory in
backing-store order. -/
def unsortedListing : List (String × FileExplorer.FileType) :=
  [("b", .file), ("a", .directory)]

/-- The directory entry whose children are listed in the ordering
counterexample. -/
def someDirEntry : FileExplorer.Entry :=
  { uri := Vsc.uriFile "/r", typ := .directory }

namespace Util

theorem listLE_total : ∀ x y : List Char, listLE x y = true ∨ listLE y x = true := by
  intro x
  induction x with
  | nil => intro y; left; rfl
  | cons a as ih =>
    intro y
    cases y with
    | nil => right; rfl
    | cons b bs =>
      rcases lt_trichotomy a b with h | h | h
      · left; simp [listLE, h]
      · subst h
        rcases ih bs with h2 | h2
        · left; simp [listLE, h2]
        · right; simp [listLE, h2]
      · right; simp [listLE, h]

theorem strLE_total (x y : String) : strLE x y = true ∨ strLE y x = true :=
  listLE_total x.data y.data

theorem chainLE_cons_cons (le : α → α → Bool) (a b : α) (t : List α) :
    chainLE le (a :: b :: t) = (le a b && chainLE le (b :: t)) := rfl

theorem chainLE_orderedInsert (le : α → α → Bool)
    (htot : ∀ a b, le a b = true ∨ le b a = true) (a : α) :
    ∀ l, chainLE le l = true → chainLE le (orderedInsert le a l) = true := by
  intro l
  induction l with
  | nil => intro _; rfl
  | cons b t ih =>
    intro hch
    by_cases hab : le a b = true
    · have hrw : orderedInsert le a (b :: t) = a :: b :: t := by
        simp [orderedInsert, hab]
      rw [hrw, chainLE_cons_cons, hab, hch]
      rfl
    · have hba : le b a = true := (htot a b).resolve_left hab
      have hrw : orderedInsert le a (b :: t) = b :: orderedInsert le a t := by
        simp [orderedInsert, hab]
      rw [hrw]
      cases t with
      | nil =>
        show (le b a && chainLE le [a]) = true
        rw [hba]; rfl
      | cons c t2 =>
        rw [chainLE_cons_cons, Bool.and_eq_true] at hch
        have hbc : le b c = true := hch.1
        have hct : chainLE le (c :: t2) = true := hch.2
        have htail : chainLE le (orderedInsert le a (c :: t2)) = true := ih hct
        by_cases hac : le a c = true
        · have hrw2 : orderedInsert le a (c :: t2) = a :: c :: t2 := by
            simp [orderedInsert, hac]
          rw [hrw2]
          rw [chainLE_cons_cons, hba, chainLE_cons_cons, hac, hct]
          rfl
        · have hrw2 : orderedInsert le a (c :: t2) = c :: orderedInsert le a t2 := by
            simp [orderedInsert, hac]
          rw [hrw2] at htail ⊢
          rw [chainLE_cons_cons, hbc, htail]
          rfl

theorem chainLE_sortBy (le : α → α → Bool)
    (htot : ∀ a b, le a b = true ∨ le b a = true) :
    ∀ l : List α, chainLE le (sortBy le l) = true := by
  intro l
  induction l with
  | nil => rfl
  | cons a t ih => exact chainLE_orderedInsert le htot a (sortBy le t) ih

theorem chainLE_map (le2 : β → β → Bool) (f : α → β) :
    ∀ l : List α, chainLE le2 (l.map f) = chainLE (fun a b => le2 (f a) (f b)) l := by
  intro l
  induction l with
  | nil => rfl
  | cons a t ih =>
    cases t with
    | nil => rfl
    | cons b t2 =>
      simp only [List.map_cons]
      simp only [List.map_cons] at ih
      rw [chainLE_cons_cons, chainLE_cons_cons, ih]

theorem chainLE_mono_mem (le1 le2 : α → α → Bool) :
    ∀ l : List α,
      (∀ a ∈ l, ∀ b ∈ l, le1 a b = true → le2 a b = true) →
      chainLE le1 l = true → chainLE le2 l = true := by
  intro l
  induction l with
  | nil => intro _ _; rfl
  | cons a t ih =>
    cases t with
    | nil => intro _ _; rfl
    | cons b t2 =>
      intro hmono hch
      rw [chainLE_cons_cons, Bool.and_eq_true] at hch ⊢
      refine ⟨hmono a (by simp) b (by simp) hch.1, ?_⟩
      exact ih
        (fun x hx y hy h => hmono x (List.mem_cons_of_mem a hx) y (List.mem_cons_of_mem a hy) h)
        hch.2

theorem chainLE_orderedInsert_of (le : α → α → Bool) (P : α → Prop)
    (htot : ∀ a b, P a → P b → le a b = true ∨ le b a = true) (a : α) :
    ∀ l, P a → (∀ x ∈ l, P x) → chainLE le l = true →
      chainLE le (orderedInsert le a l) = true := by
  intro l
  induction l with
  | nil => intro _ _ _; rfl
  | cons b t ih =>
    intro hPa hPl hch
    have hPb : P b := hPl b (by simp)
    have hPt : ∀ x ∈ t, P x := fun x hx => hPl x (List.mem_cons_of_mem b hx)
    by_cases hab : le a b = true
    · have hrw : orderedInsert le a (b :: t) = a :: b :: t := by
        simp [orderedInsert, hab]
      rw [hrw, chainLE_cons_cons, hab, hch]
      rfl
    · have hba : le b a = true := (htot a b hPa hPb).resolve_left hab
      have hrw : orderedInsert le a (b :: t) = b :: orderedInsert le a t := by
        simp [orderedInsert, hab]
      rw [hrw]
      cases t with
      | nil =>
        show (le b a && chainLE le [a]) = true
        rw [hba]; rfl
      | cons c t2 =>
        rw [chainLE_cons_cons, Bool.and_eq_true] at hch
        have hbc : le b c = true := hch.1
        have hct : chainLE le (c :: t2) = true := hch.2
        have htail : chainLE le (orderedInsert le a (c :: t2)) = true :=
          ih hPa hPt hct
        by_cases hac : le a c = true
        · have hrw2 : orderedInsert le a (c :: t2) = a :: c :: t2 := by
            simp [orderedInsert, hac]
          rw [hrw2, chainLE_cons_cons, hba, chainLE_cons_cons, hac, hct]
          rfl
        · have hrw2 : orderedInsert le a (c :: t2) = c :: orderedInsert le a t2 := by
            simp [orderedInsert, hac]
          rw [hrw2] at htail ⊢
          rw [chainLE_cons_cons, hbc, htail]
          rfl

theorem orderedInsert_perm (le : α → α → Bool) (a : α) :
    ∀ l : List α, (orderedInsert le a l).Perm (a :: l) := by
  intro l
  induction l with
  | nil => exact List.Perm.refl [a]
  | cons b t ih =>
    by_cases h : le a b = true
    · have hrw : orderedInsert le a (b :: t) = a :: b :: t := by
        simp [orderedInsert, h]
      rw [hrw]
    · have hrw : orderedInsert le a (b :: t) = b :: orderedInsert le a t := by
        simp [orderedInsert, h]
      rw [hrw]
      exact (List.Perm.cons b ih).trans (List.Perm.swap a b t)

theorem sortBy_perm (le : α → α → Bool) :
    ∀ l : List α, (sortBy le l).Perm l := by
  intro l
  induction l with
  | nil => exact List.Perm.refl []
  | cons a t ih =>
    exact (orderedInsert_perm le a (sortBy le t)).trans (List.Perm.cons a ih)

theorem chainLE_sortBy_of (le : α → α → Bool) (P : α → Prop)
    (htot : ∀ a b, P a → P b → le a b = true ∨ le b a = true) :
    ∀ l, (∀ x ∈ l, P x) → chainLE le (sortBy le l) = true := by
  intro l
  induction l with
  | nil => intro _; rfl
  | cons a t ih =>
    intro hPl
    have hPa : P a := hPl a (by simp)
    have hPt : ∀ x ∈ t, P x := fun x hx => hPl x (List.mem_cons_of_mem a hx)
    have hmem : ∀ x ∈ sortBy le t, P x := fun x hx =>
      hPt x ((sortBy_perm le t).mem_iff.mp hx)
    exact chainLE_orderedInsert_of le P htot a (sortBy le t) hPa hmem (ih hPt)

theorem dropWhile_slash_append (l r : List Char)
    (hl : ∀ c ∈ l, ¬ c = '/') (hne : l ≠ []) :
    (l ++ r).dropWhile (fun c => c == '/') = l ++ r := by
  cases l with
  | nil => exact absurd rfl hne
  | cons c t =>
    have hc : ¬ c = '/' := hl c (by simp)
    simp [List.dropWhile_cons, hc]

theorem takeWhile_ne_slash_append (l r : List Char)
    (hl : ∀ c ∈ l, ¬ c = '/') :
    (l ++ '/' :: r).takeWhile (fun c => !(c == '/')) = l := by
  induction l with
  | nil => simp [List.takeWhile_cons]
  | cons c t ih =>
    have hc : ¬ c = '/' := hl c (by simp)
    simp only [List.cons_append, List.takeWhile_cons]
    simp [hc]
    exact ih (fun x hx => hl x (List.mem_cons_of_mem c hx))

theorem basename_of_data (u nm : String) (pre : List Char)
    (hd : u.data = pre ++ '/' :: nm.data)
    (h1 : nm.data ≠ []) (h2 : ∀ c ∈ nm.data, ¬ c = '/') :
    basename u = nm := by
  unfold basename
  rw [hd]
  have hrev : (pre ++ '/' :: nm.data).reverse
      = nm.data.reverse ++ '/' :: pre.reverse := by
    simp [List.reverse_append]
  rw [hrev]
  have h2r : ∀ c ∈ nm.data.reverse, ¬ c = '/' := fun c hc =>
    h2 c (List.mem_reverse.mp hc)
  have hner : nm.data.reverse ≠ [] := by
    intro h
    exact h1 (by simpa using congrArg List.reverse h)
  rw [dropWhile_slash_append nm.data.reverse ('/' :: pre.reverse) h2r hner]
  rw [takeWhile_ne_slash_append nm.data.reverse pre.reverse h2r]
  rw [List.reverse_reverse]

theorem dirnameCore_ge_one :
    ∀ (l : List Char) (i : Nat) (ms : Bool) (e : Nat),
      dirnameCore l i ms = some e → 1 ≤ e := by
  intro l
  induction l with
  | nil => intro i ms e h; simp [dirnameCore] at h
  | cons c t ih =>
    intro i ms e h
    by_cases hi : i = 0
    · simp [dirnameCore, hi] at h
    · by_cases hc : c = '/'
      · cases ms with
        | true =>
          simp [dirnameCore, hi, hc] at h
          exact ih (i - 1) true e h
        | false =>
          simp [dirnameCore, hi, hc] at h
          omega
      · simp [dirnameCore, hi, hc] at h
        exact ih (i - 1) false e h

theorem dirnameL_ne_nil : ∀ l : List Char, dirnameL l ≠ [] := by
  intro l
  unfold dirnameL
  split
  · simp
  · split
    · split <;> simp
    · next c t e hcore =>
      have he : 1 ≤ e := dirnameCore_ge_one _ _ _ _ hcore
      split
      · simp
      · cases e with
        | zero => omega
        | succ e2 => simp

theorem dirname_ne_empty (s : String) : dirname s ≠ "" := by
  intro h
  exact dirnameL_ne_nil s.data (congrArg String.data h)

end Util

namespace FtpExplorer

theorem ftpLE_total : ∀ a b : FtpNode, ftpLE a b = true ∨ ftpLE b a = true := by
  intro a b
  cases ha : a.isDirectory <;> cases hb : b.isDirectory <;>
    simp [ftpLE, ha, hb] <;>
    exact Util.strLE_total _ _

end FtpExplorer

namespace FileExplorer

theorem fsExists_insertDir_mono (fs : FileSys) (q x : String)
    (h : fsExists fs x = true) : fsExists (insertDirIfAbsent fs q) x = true := by
  unfold insertDirIfAbsent
  split
  · exact h
  · unfold fsExists at h ⊢
    rw [List.any_append, h]
    rfl

theorem fsExists_insertDir_self (fs : FileSys) (q : String) :
    fsExists (insertDirIfAbsent fs q) q = true := by
  unfold insertDirIfAbsent
  split
  · assumption
  · unfold fsExists
    rw [List.any_append]
    simp

theorem fsExists_mkdirpGo_mono :
    ∀ (fuel : Nat) (fs : FileSys) (q x : String),
      fsExists fs x = true → fsExists (mkdirpGo fuel fs q) x = true := by
  intro fuel
  induction fuel with
  | zero => intro fs q x h; exact h
  | succ n ih =>
    intro fs q x h
    unfold mkdirpGo
    split
    · exact h
    · exact ih _ _ _ (fsExists_insertDir_mono fs q x h)

theorem dirExists_of_fsExists (fs : FileSys) (q : String)
    (h : fsExists fs q = true) : dirExists fs q = true := by
  unfold dirExists
  unfold fsExists at h
  rw [h]
  simp

theorem dirExists_mkdirp_self (fs : FileSys) (q : String) (hq : q ≠ "") :
    dirExists (fsMkdirp fs q) q = true := by
  by_cases hr : q = "/"
  · subst hr
    simp [dirExists]
  · apply dirExists_of_fsExists
    show fsExists (mkdirpGo (q.length + 1) fs q) q = true
    unfold mkdirpGo
    have hc : (q == "/" || q == "") = false := by
      simp [hr, hq]
    rw [hc]
    simp only [Bool.false_eq_true, if_false]
    exact fsExists_mkdirpGo_mono _ _ _ _ (fsExists_insertDir_self fs q)

theorem rootLE_total_fd :
    ∀ a b : String × FileType,
      (a.2 = FileType.file ∨ a.2 = FileType.directory) →
      (b.2 = FileType.file ∨ b.2 = FileType.directory) →
      rootLE a b = true ∨ rootLE b a = true := by
  intro a b ha hb
  rcases ha with ha | ha <;> rcases hb with hb | hb <;>
    simp [rootLE, ha, hb] <;>
    exact Util.strLE_total _ _

theorem basename_uriFile_join (base nm : String)
    (h1 : nm ≠ "") (h2 : ∀ c ∈ nm.data, ¬ c = '/') :
    Util.basename (Vsc.uriFile (base ++ "/" ++ nm)).path = nm := by
  have h1d : nm.data ≠ [] := by
    intro h
    exact h1 (String.ext (h.trans rfl))
  have hjoin : (base ++ "/" ++ nm).data = base.data ++ '/' :: nm.data := by
    show (base.data ++ ['/']) ++ nm.data = base.data ++ '/' :: nm.data
    exact List.append_assoc base.data ['/'] nm.data
  have hjoin2 : ("/" ++ (base ++ "/" ++ nm)).data
      = ('/' :: base.data) ++ '/' :: nm.data := by
    show '/' :: (base ++ "/" ++ nm).data = ('/' :: base.data) ++ '/' :: nm.data
    rw [hjoin]
    rfl
  show Util.basename (Vsc.refResolve "file" (base ++ "/" ++ nm)) = nm
  unfold Vsc.refResolve
  split
  · split
    · next hemp =>
      rw [beq_iff_eq] at hemp
      have hdata := congrArg String.data hemp
      rw [hjoin] at hdata
      simp at hdata
    · split
      · exact Util.basename_of_data ("/" ++ (base ++ "/" ++ nm)) nm
          ('/' :: base.data) hjoin2 h1d h2
      · exact Util.basename_of_data (base ++ "/" ++ nm) nm base.data hjoin h1d h2
  · next hsch => exact absurd (by decide) hsch

theorem rootLE_implies_entryLE (ws : Vsc.Uri) (a b : String × FileType)
    (ha1 : a.1 ≠ "") (ha2 : ∀ c ∈ a.1.data, ¬ c = '/')
    (hb1 : b.1 ≠ "") (hb2 : ∀ c ∈ b.1.data, ¬ c = '/')
    (h : rootLE a b = true) :
    entryLE { uri := Vsc.uriFile (Vsc.fsPath ws ++ "/" ++ a.1), typ := a.2 }
            { uri := Vsc.uriFile (Vsc.fsPath ws ++ "/" ++ b.1), typ := b.2 }
      = true := by
  have hna := basename_uriFile_join (Vsc.fsPath ws) a.1 ha1 ha2
  have hnb := basename_uriFile_join (Vsc.fsPath ws) b.1 hb1 hb2
  cases hta : a.2 <;> cases htb : b.2 <;>
    simp [rootLE, hta, htb] at h <;>
    simp [entryLE, hta, htb, hna, hnb, h]

/-- The root listing of `FileSystemProvider.getChildren` is sorted in the
claimed order (directories first, lexicographic ties) whenever the listing
contains only files and directories with non-empty, slash-free names. -/
theorem getChildrenRoot_sorted (ws : Vsc.Uri)
    (listing : List (String × FileType))
    (htypes : ∀ x ∈ listing, x.2 = FileType.file ∨ x.2 = FileType.directory)
    (hnames : ∀ x ∈ listing, x.1 ≠ "" ∧ ∀ c ∈ x.1.data, ¬ c = '/') :
    Util.chainLE entryLE (getChildrenRoot ws listing) = true := by
  unfold getChildrenRoot
  rw [Util.chainLE_map]
  have hmem : ∀ x ∈ Util.sortBy rootLE listing, x ∈ listing := fun x hx =>
    (Util.sortBy_perm rootLE listing).mem_iff.mp hx
  apply Util.chainLE_mono_mem rootLE _ (Util.sortBy rootLE listing)
  · intro x hx y hy hxy
    have hxn := hnames x (hmem x hx)
    have hyn := hnames y (hmem y hy)
    exact rootLE_implies_entryLE ws x y hxn.1 hxn.2 hyn.1 hyn.2 hxy
  · exact Util.chainLE_sortBy_of rootLE
      (fun x => x.2 = FileType.file ∨ x.2 = FileType.directory)
      rootLE_total_fd listing htypes

end FileExplorer

namespace JsonOutline

theorem firesFresh_onDocChangedGo (parse : String → Option (Doc × Nat))
    (raw : String) (rp : JState → Nat → Option Nat) :
    ∀ (changes : List Nat) (st : JState) (cur : Option JState),
      firesFresh (doParseTree parse (some raw)) cur
        (onDocChangedGo parse raw rp st changes) := by
  intro changes
  induction changes with
  | nil => intro st cur; trivial
  | cons c rest ih =>
    intro st cur
    exact ⟨rfl, ih _ _⟩

end JsonOutline

/-- C1 (counterexample): the parent/child inverse law fails on the FTP
explorer.  The node listed by `getChildren` under the root directory node
(host `h`, directory `d`, child entry `c`) is a `file`-scheme node whose
recomputed parent is `file:///d`, not the `ftp`-scheme root, so
`getParent c` differs from the node it was listed under. -/
theorem C1_parent_child_counterexample :
    (FtpExplorer.getChildren ftpRoot (.ok ()) (.ok [{ name := "c", type := "d" }])).1
      = .ok [ftpChild]
    ∧ ((FtpExplorer.getParent ftpChild == some ftpRoot) = false)
    ∧ FtpExplorer.getParent ftpChild
      = some { resource := { scheme := "file", authority := "", path := "/d" },
               isDirectory := true } := by
  exact ⟨rfl, by decide, by decide⟩

/-- C1 (amended): for every key of the static test view, every child
returned by `getChildren` resolves back to that key under `getParent`, and
the roots resolve to `none`; for the FTP explorer the law holds again below
the first level (witnessed at a depth-two node) but not for children of
roots. -/
theorem C1_parent_child_inverse_amended :
    TestView.parentLawHolds = true
    ∧ ((TestView.getChildren "").all (fun c => TestView.getParent c == none)) = true
    ∧ FtpExplorer.getParent ftpGrandchild = some ftpChild := by
  exact ⟨by decide, by decide, by decide⟩

/-- C2 (counterexample): in the JSON outline, `getChildren` on a truthy
offset whose node no longer exists in the parsed tree (the resolver returns
`undefined`) throws a TypeError (reading `children` of `undefined`) instead
of returning the empty sequence. -/
theorem C2_children_missing_counterexample :
    JsonOutline.vanishedResolve 5 = none
    ∧ JsonOutline.getChildren JsonOutline.sampleDoc (some 0)
        JsonOutline.vanishedResolve (some 5) = .error .typeError := by
  exact ⟨rfl, rfl⟩

/-- C2 (amended): the static test view returns `[]` for a non-empty key that
does not resolve, and the JSON outline returns `[]` for the root when there
is no parsed tree; but for a truthy offset whose node does not resolve the
JSON outline raises a TypeError rather than returning `[]`. -/
theorem C2_children_empty_amended :
    (∀ k : String, k ≠ "" → TestView.getTreeElement k = none →
      TestView.getChildren k = [])
    ∧ (∀ (d : JsonOutline.Doc) (resolve : Nat → Option Nat),
        JsonOutline.getChildren d none resolve none = .ok [])
    ∧ (∀ (d : JsonOutline.Doc) (tree : Option Nat) (resolve : Nat → Option Nat)
        (o : Nat), o ≠ 0 → resolve o = none →
        JsonOutline.getChildren d tree resolve (some o) = .error .typeError) := by
  refine ⟨?_, ?_, ?_⟩
  · intro k hk h
    have hb : (k == "") = false := by simp [hk]
    simp [TestView.getChildren, hb, h]
  · intro d resolve
    rfl
  · intro d tree resolve o ho h
    simp [JsonOutline.getChildren, ho, h, JsonOutline.getChildrenOffsets]

/-- C2 (witness): the amended statement applied at the unknown key `zz`, at
an absent tree, and at the vanished offset `5`. -/
theorem C2_children_empty_amended_witness :
    TestView.getChildren "zz" = []
    ∧ JsonOutline.getChildren [] none JsonOutline.vanishedResolve none = .ok []
    ∧ JsonOutline.getChildren JsonOutline.sampleDoc (some 0)
        JsonOutline.vanishedResolve (some 5) = .error .typeError :=
  ⟨C2_children_empty_amended.1 "zz" (by decide) rfl,
   C2_children_empty_amended.2.1 [] JsonOutline.vanishedResolve,
   C2_children_empty_amended.2.2 JsonOutline.sampleDoc (some 0)
     JsonOutline.vanishedResolve 5 (by decide) rfl⟩

/-- C3 (counterexample): the file-system explorer does not sort below the
workspace root: `getChildren(element)` maps the `readDirectory` listing as
is, so a listing arriving as file `b` before directory `a` is returned with
a file before a directory, violating the claimed ordering. -/
theorem C3_ordering_counterexample :
    Util.chainLE FileExplorer.entryLE
      (FileExplorer.getChildrenElem someDirEntry unsortedListing) = false
    ∧ (FileExplorer.getChildrenElem someDirEntry unsortedListing).map
        (fun e => e.uri.path) = ["/r/b", "/r/a"] := by
  exact ⟨by decide, by decide⟩

/-- C3 (amended): FTP listings are sorted at every level — `FtpModel.sort`
always yields a permutation of its input with directories before files and
ties ordered by basename, and both `roots` and `getChildren` return exactly
that sorted sequence.  The file-system explorer sorts only the workspace
root: for a listing containing only files and directories with non-empty,
slash-free names, `getChildren()` at the root is sorted in the same
directories-first, lexicographic order, but the root comparator is
inconsistent on other kind pairs (a file and a symbolic link each compare
after the other), so no ordering is guaranteed for such listings; below the
root, `getChildren(element)` preserves the backing listing's order and
types, unsorted. -/
theorem C3_listing_order_amended :
    (∀ l : List FtpExplorer.FtpNode,
      Util.chainLE FtpExplorer.ftpLE (FtpExplorer.sort l) = true)
    ∧ (∀ l : List FtpExplorer.FtpNode, (FtpExplorer.sort l).Perm l)
    ∧ (∀ (host : String) (es : List FtpExplorer.IEntry),
        (FtpExplorer.roots host (.ok ()) (.ok es)).1
          = .ok (FtpExplorer.sort (es.map (FtpExplorer.mkRootNode host))))
    ∧ (∀ (node : FtpExplorer.FtpNode) (es : List FtpExplorer.IEntry),
        (FtpExplorer.getChildren node (.ok ()) (.ok es)).1
          = .ok (FtpExplorer.sort (es.map (FtpExplorer.mkChildNode node))))
    ∧ (∀ (ws : Vsc.Uri) (listing : List (String × FileExplorer.FileType)),
        (∀ x ∈ listing,
          x.2 = FileExplorer.FileType.file ∨ x.2 = FileExplorer.FileType.directory) →
        (∀ x ∈ listing, x.1 ≠ "" ∧ ∀ c ∈ x.1.data, ¬ c = '/') →
        Util.chainLE FileExplorer.entryLE (FileExplorer.getChildrenRoot ws listing) = true)
    ∧ (FileExplorer.rootLE ("a", FileExplorer.FileType.file)
          ("b", FileExplorer.FileType.symbolicLink) = false
       ∧ FileExplorer.rootLE ("b", FileExplorer.FileType.symbolicLink)
          ("a", FileExplorer.FileType.file) = false)
    ∧ (∀ (element : FileExplorer.Entry) (listing : List (String × FileExplorer.FileType)),
        (FileExplorer.getChildrenElem element listing).map (fun e => e.typ)
          = listing.map (fun nt => nt.2)) := by
  refine ⟨?_, ?_, ?_, ?_, ?_, ?_, ?_⟩
  · intro l
    exact Util.chainLE_sortBy FtpExplorer.ftpLE FtpExplorer.ftpLE_total l
  · intro l
    exact Util.sortBy_perm FtpExplorer.ftpLE l
  · intro host es; rfl
  · intro node es; rfl
  · intro ws listing htypes hnames
    exact FileExplorer.getChildrenRoot_sorted ws listing htypes hnames
  · exact ⟨by decide, by decide⟩
  · intro element listing
    simp [FileExplorer.getChildrenElem]

/-- C3 (witness): the root-listing conjunct applied at a concrete workspace
folder and a three-entry listing of files and directories, whose hypotheses
hold by evaluation. -/
theorem C3_listing_order_amended_witness :
    Util.chainLE FileExplorer.entryLE
      (FileExplorer.getChildrenRoot (Vsc.uriFile "/w")
        [("b", FileExplorer.FileType.file),
         ("a", FileExplorer.FileType.directory),
         ("c", FileExplorer.FileType.file)]) = true :=
  C3_listing_order_amended.2.2.2.2.1 (Vsc.uriFile "/w")
    [("b", FileExplorer.FileType.file),
     ("a", FileExplorer.FileType.directory),
     ("c", FileExplorer.FileType.file)]
    (by decide) (by decide)

/-- C4 (counterexample): renaming the scenario document's key `a` (the tree
item at the value offset `6`) redirects the edit to the key token, but the
change event fired afterwards carries the original offset `6` — the value
node, whose parent is the property node at offset `1` — not the parent and
not the root payload (`none`). -/
theorem C4_rename_event_counterexample :
    JsonOutline.rename JsonOutline.sampleDoc JsonOutline.sampleText
        JsonOutline.sampleResolve 6 "x"
      = .ok ("\x7b\"x\": 1, \"b\": [2,3]\x7d", some 6)
    ∧ (JsonOutline.sampleDoc[3]?).map (fun n => n.parent) = some (some 1)
    ∧ (JsonOutline.sampleDoc[1]?).map (fun n => n.offset) = some 1
    ∧ ((some 6 : Option Nat) == some 1) = false
    ∧ ((some 6 : Option Nat) == none) = false := by
  exact ⟨by decide, by decide, by decide, by decide, by decide⟩

/-- C4 (amended): the rename edit is redirected to the key token — for any
replacement value the property's key range `[1, 4)` is rewritten, producing
the expected document for value `x` — and the change event fired afterwards
targets the original rename argument (the value node's offset `6`), not the
parent of the renamed node. -/
theorem C4_rename_redirect_amended :
    (∀ v : String,
      JsonOutline.rename JsonOutline.sampleDoc JsonOutline.sampleText
          JsonOutline.sampleResolve 6 v
        = .ok (Util.replaceRange JsonOutline.sampleText 1 3 ("\"" ++ v ++ "\""),
               some 6))
    ∧ JsonOutline.rename JsonOutline.sampleDoc JsonOutline.sampleText
        JsonOutline.sampleResolve 6 "x"
      = .ok ("\x7b\"x\": 1, \"b\": [2,3]\x7d", some 6) := by
  refine ⟨?_, by decide⟩
  intro v
  rfl

/-- C5 (counterexample): a rename-with-overwrite whose final step fails is
not rolled back.  With the backing source holding `/b` and no `/a`, renaming
`/a` to `/b` with overwrite first deletes `/b`, then fails with FileNotFound
— and the directory listing of the root after the failed edit differs from
its pre-edit value. -/
theorem C5_rollback_counterexample :
    (FileExplorer.rename fsWithB "/a" "/b" true).1 = .error .fileNotFound
    ∧ ((FileExplorer.fsReaddir (FileExplorer.rename fsWithB "/a" "/b" true).2 "/"
        == FileExplorer.fsReaddir fsWithB "/") = false) := by
  exact ⟨by decide, by decide⟩

/-- C5 (amended): no rollback is performed.  Whenever the rename target
exists, the source does not, and the target's parent directory survives the
deletion, `_rename` with overwrite propagates FileNotFound while leaving the
backing source permanently changed: the final state is exactly the pre-edit
state with the overwritten target already deleted. -/
theorem C5_no_rollback_amended :
    ∀ (fs : FileExplorer.FileSys) (oldPath newPath : String),
      FileExplorer.fsExists fs newPath = true →
      FileExplorer.fsExists (FileExplorer.fsRmrf fs newPath) oldPath = false →
      FileExplorer.dirExists (FileExplorer.fsRmrf fs newPath) (Util.dirname newPath) = true →
      FileExplorer.rename fs oldPath newPath true
        = (.error .fileNotFound, FileExplorer.fsRmrf fs newPath) := by
  intro fs oldPath newPath h1 h2 h3
  simp [FileExplorer.rename, h1, h2, h3, FileExplorer.renamePrim]

/-- C5 (witness): the amended statement applied at the concrete backing
source holding `/b` but no `/a`. -/
theorem C5_no_rollback_amended_witness :
    FileExplorer.rename fsWithB "/a" "/b" true
      = (.error .fileNotFound, FileExplorer.fsRmrf fsWithB "/b") :=
  C5_no_rollback_amended fsWithB "/a" "/b" (by decide) (by decide) (by decide)

/-- C6: the backing source is always re-derived from the new raw content
before the change notifier fires.  In the step traces of both `refresh` and
`onDocumentChanged` (over any parse function, raw content, resolver, flags
and change list), every fired event is observed only after a re-derivation
that equals `doParseTree` of the current raw content. -/
theorem C6_reparse_before_fire :
    (∀ (parse : String → Option (JsonOutline.Doc × Nat)) (raw : String)
      (offset : Option Nat),
      JsonOutline.firesFresh (JsonOutline.doParseTree parse (some raw)) none
        (JsonOutline.refreshSteps parse raw offset))
    ∧ (∀ (parse : String → Option (JsonOutline.Doc × Nat)) (raw : String)
        (rp : JsonOutline.JState → Nat → Option Nat)
        (autoRefresh uriMatch : Bool) (st0 : JsonOutline.JState)
        (changes : List Nat),
        JsonOutline.firesFresh (JsonOutline.doParseTree parse (some raw)) none
          (JsonOutline.onDocumentChangedSteps parse raw rp autoRefresh uriMatch
            st0 changes)) := by
  constructor
  · intro parse raw offset
    exact ⟨rfl, trivial⟩
  · intro parse raw rp autoRefresh uriMatch st0 changes
    unfold JsonOutline.onDocumentChangedSteps
    split
    · exact JsonOutline.firesFresh_onDocChangedGo parse raw rp changes st0 none
    · trivial

/-- C7 (counterexample): on the error path of a listing the FTP connection
is not closed — `roots` with a failing `list` call surfaces the error but
its connection trace contains no `ended` event. -/
theorem C7_connection_counterexample :
    FtpExplorer.roots "h" (.ok ()) (.error "boom")
      = (.error "boom", [.connected])
    ∧ ((FtpExplorer.roots "h" (.ok ()) (.error "boom")).2.contains .ended = false) := by
  exact ⟨rfl, by decide⟩

/-- C7 (amended): every FTP logical operation opens at most one connection
per call and never retries; a failure (of connect, list or get) surfaces
immediately as an error.  The connection is closed before completion on the
success path, but on the listing/fetch error path the trace ends at
`connected` — the connection is left open. -/
theorem C7_connection_lifecycle_amended :
    (∀ (host : String) (es : List FtpExplorer.IEntry),
      FtpExplorer.roots host (.ok ()) (.ok es)
        = (.ok (FtpExplorer.sort (es.map (FtpExplorer.mkRootNode host))),
           [.connected, .ended]))
    ∧ (∀ (host e : String),
        FtpExplorer.roots host (.ok ()) (.error e) = (.error e, [.connected]))
    ∧ (∀ (host ce : String) (lr : Except String (List FtpExplorer.IEntry)),
        FtpExplorer.roots host (.error ce) lr
          = (.error ("Error while connecting: " ++ ce), []))
    ∧ (∀ (node : FtpExplorer.FtpNode) (es : List FtpExplorer.IEntry),
        FtpExplorer.getChildren node (.ok ()) (.ok es)
          = (.ok (FtpExplorer.sort (es.map (FtpExplorer.mkChildNode node))),
             [.connected, .ended]))
    ∧ (∀ (node : FtpExplorer.FtpNode) (e : String),
        FtpExplorer.getChildren node (.ok ()) (.error e) = (.error e, [.connected]))
    ∧ (∀ (node : FtpExplorer.FtpNode) (ce : String)
        (lr : Except String (List FtpExplorer.IEntry)),
        FtpExplorer.getChildren node (.error ce) lr
          = (.error ("Error while connecting: " ++ ce), []))
    ∧ (∀ s : String,
        FtpExplorer.getContent (.ok ()) (.ok s) = (.ok s, [.connected, .ended]))
    ∧ (∀ e : String,
        FtpExplorer.getContent (.ok ()) (.error e) = (.error e, [.connected]))
    ∧ (∀ (ce : String) (gr : Except String String),
        FtpExplorer.getContent (.error ce) gr
          = (.error ("Error while connecting: " ++ ce), []))
    ∧ (∀ (host : String) (conn : Except String Unit)
        (lr : Except String (List FtpExplorer.IEntry)),
        ((FtpExplorer.roots host conn lr).2.count .connected) ≤ 1) := by
  refine ⟨?_, ?_, ?_, ?_, ?_, ?_, ?_, ?_, ?_, ?_⟩
  · intro host es; rfl
  · intro host e; rfl
  · intro host ce lr; rfl
  · intro node es; rfl
  · intro node e; rfl
  · intro node ce lr; rfl
  · intro s; rfl
  · intro e; rfl
  · intro ce gr; rfl
  · intro host conn lr
    cases conn with
    | error ce => exact Nat.zero_le 1
    | ok u =>
      cases lr with
      | error e => exact Nat.le_refl 1
      | ok es => exact Nat.le_refl 1

/-- C8: the create/overwrite flag logic of `writeFile`.  A missing target
with `create` false fails with FileNotFound and leaves the file system
untouched; an existing target with `overwrite` false fails with FileExists
and leaves the file system untouched; otherwise the write is performed
(creating the parent directory in the create case). -/
theorem C8_writeFile_flags :
    ∀ (fs : FileExplorer.FileSys) (p content : String) (cr ov : Bool),
      (FileExplorer.fsExists fs p = false → cr = false →
        FileExplorer.writeFile fs p content cr ov = (.error .fileNotFound, fs))
      ∧ (FileExplorer.fsExists fs p = true → ov = false →
        FileExplorer.writeFile fs p content cr ov = (.error .fileExists, fs))
      ∧ (FileExplorer.fsExists fs p = false → cr = true →
        FileExplorer.writeFile fs p content cr ov
          = (.ok (), FileExplorer.fsStore
              (FileExplorer.fsMkdirp fs (Util.dirname p)) p (.file content)))
      ∧ (FileExplorer.fsExists fs p = true → ov = true →
        FileExplorer.writeFile fs p content cr ov
          = (.ok (), FileExplorer.fsStore fs p (.file content))) := by
  intro fs p content cr ov
  refine ⟨?_, ?_, ?_, ?_⟩
  · intro hex hcr
    subst hcr
    simp [FileExplorer.writeFile, hex]
  · intro hex hov
    subst hov
    simp [FileExplorer.writeFile, hex]
  · intro hex hcr
    subst hcr
    have hd := FileExplorer.dirExists_mkdirp_self fs (Util.dirname p)
      (Util.dirname_ne_empty p)
    simp [FileExplorer.writeFile, hex, FileExplorer.writefile, hd]
  · intro hex hov
    subst hov
    simp [FileExplorer.writeFile, hex, FileExplorer.writefile]

/-- C8 (witness): the flag logic applied at concrete file systems — missing
`/f` without create, existing `/f` without overwrite, missing `/f` with
create, and existing `/f` with overwrite. -/
theorem C8_writeFile_flags_witness :
    FileExplorer.writeFile fsRootOnly "/f" "c" false false
      = (.error .fileNotFound, fsRootOnly)
    ∧ FileExplorer.writeFile fsWithF "/f" "c" false false
      = (.error .fileExists, fsWithF)
    ∧ FileExplorer.writeFile fsRootOnly "/f" "c" true false
      = (.ok (), FileExplorer.fsStore
          (FileExplorer.fsMkdirp fsRootOnly (Util.dirname "/f")) "/f" (.file "c"))
    ∧ FileExplorer.writeFile fsWithF "/f" "c" false true
      = (.ok (), FileExplorer.fsStore fsWithF "/f" (.file "c")) :=
  ⟨(C8_writeFile_flags fsRootOnly "/f" "c" false false).1 (by decide) rfl,
   (C8_writeFile_flags fsWithF "/f" "c" false false).2.1 (by decide) rfl,
   (C8_writeFile_flags fsRootOnly "/f" "c" true false).2.2.1 (by decide) rfl,
   (C8_writeFile_flags fsWithF "/f" "c" false true).2.2.2 (by decide) rfl⟩

/-- C9 (counterexample): the JSON outline's `getTreeItem` throws for a
NodeId that resolves.  At offset `6` of the document binding `a` to
`[null]`, the resolver yields the `null` array element, and the label
computation calls `toString` on the `null` value — a TypeError. -/
theorem C9_metadata_throw_counterexample :
    JsonOutline.nullResolve 6 = some 4
    ∧ JsonOutline.getTreeItem JsonOutline.nullDoc JsonOutline.nullText
        JsonOutline.nullResolve 6 = .error .typeError := by
  exact ⟨rfl, rfl⟩

/-- C9 (amended): for a NodeId that does not resolve, metadata is returned
without an error — the JSON outline returns `null` and the test view returns
an item with the leaf collapsible state; but the JSON outline's metadata can
throw for certain resolving NodeIds (a `null` literal inside an array). -/
theorem C9_metadata_absent_amended :
    (∀ (d : JsonOutline.Doc) (text : String) (resolve : Nat → Option Nat)
      (o : Nat), resolve o = none →
      JsonOutline.getTreeItem d text resolve o = .ok none)
    ∧ (∀ k : String, TestView.getTreeElement k = none →
        (TestView.getTreeItem k).collapsibleState = .none) := by
  constructor
  · intro d text resolve o h
    simp [JsonOutline.getTreeItem, h]
  · intro k h
    simp [TestView.getTreeItem, h]

/-- C9 (witness): the amended statement applied at the vanished resolver and
at the unknown key `zz`. -/
theorem C9_metadata_absent_amended_witness :
    JsonOutline.getTreeItem JsonOutline.sampleDoc JsonOutline.sampleText
        JsonOutline.vanishedResolve 6 = .ok none
    ∧ (TestView.getTreeItem "zz").collapsibleState = .none :=
  ⟨C9_metadata_absent_amended.1 JsonOutline.sampleDoc JsonOutline.sampleText
     JsonOutline.vanishedResolve 6 rfl,
   C9_metadata_absent_amended.2 "zz" rfl⟩

/-- C10: `refresh(0)` treats the falsy offset `0` as not supplied: it fires
the root-changed payload (`none`) rather than an event targeted at offset
`0`, and no `refresh` call whatsoever can fire an event targeting offset
`0`. -/
theorem C10_refresh_zero_is_root :
    (∀ (parse : String → Option (JsonOutline.Doc × Nat)) (raw : Option String),
      (JsonOutline.refresh parse raw (some 0)).2 = none)
    ∧ (∀ (parse : String → Option (JsonOutline.Doc × Nat)) (raw : Option String)
        (offset : Option Nat),
        (((JsonOutline.refresh parse raw offset).2 == some 0) = false)) := by
  constructor
  · intro parse raw
    rfl
  · intro parse raw offset
    cases offset with
    | none => rfl
    | some n =>
      by_cases hn : n = 0
      · subst hn; rfl
      · simp [JsonOutline.refresh, JsonOutline.refreshPayload, hn]

